import Mathlib

/-!
Verification of the dtm-download server (`src-server`), a download-and-assembly
job orchestrator.  The Rust sources are shallowly embedded: pure functions become
Lean functions; effectful functions (network, filesystem, external commands) are
modelled by explicit world/state passing, with machine integers rendered as `Nat`
and `f64` progress quantities rendered as `Rat` (the values the theorems inspect
are exact integers, so the rational model is faithful for them).  Error message
payloads (Rust `e.to_string()` on library errors) are supplied by the world.
-/

namespace Dtm

/-! ## Data model (src/api_types.rs) -/

/-- GeoJSON geometry, `api_types.rs` `GeoJSONGeometry`.  Coordinates are `f64`
in the source; they are carried opaquely and never computed with. -/
inductive GeoJSONGeometry where
  | Point (coords : List Float)
  | MultiPoint (coords : List (List Float))
  | LineString (coords : List (List Float))
  | MultiLineString (coords : List (List (List Float)))
  | Polygon (coords : List (List (List Float)))
  | MultiPolygon (coords : List (List (List (List Float))))

/-- A DTM package, `api_types.rs` `Package`. -/
structure Package where
  package_name : String
  size_gb : Float
  resolution : Float
  download_url : String
  project : String
  year_range : Option String
  coverage_km2 : Float
  geometry : GeoJSONGeometry

/-- `api_types.rs` `DownloadProgressEvent`.  `percentage`/`speed_bps` are `f64`
in the source, modelled as `Rat`. -/
structure DownloadProgressEvent where
  package_name : String
  bytes_downloaded : Nat
  total_bytes : Nat
  percentage : Rat
  speed_bps : Rat
  eta_seconds : Option Nat
  status : String
deriving DecidableEq

/-- `api_types.rs` `ProcessingProgressEvent`. -/
structure ProcessingProgressEvent where
  stage : String
  percentage : Nat
  message : String
deriving DecidableEq

/-- `api_types.rs` `ProgressEvent`. -/
inductive ProgressEvent where
  | Download (ev : DownloadProgressEvent)
  | Processing (ev : ProcessingProgressEvent)
  | Complete (output_filename : String)
  | Error (message : String)
deriving DecidableEq

/-! ## Path sanitization and cache key (src/routes.rs) -/

/-- Rust `char::is_ascii_alphanumeric`. -/
def is_ascii_alphanumeric (c : Char) : Bool :=
  ('a' ≤ c && c ≤ 'z') || ('A' ≤ c && c ≤ 'Z') || ('0' ≤ c && c ≤ '9')

/-- `routes.rs` `sanitize_for_path`: keep ASCII alphanumerics, `-` and `_`;
replace every other character by `_`. -/
def sanitize_for_path (input : String) : String :=
  String.mk (input.data.map (fun c =>
    if is_ascii_alphanumeric c || c == '-' || c == '_' then c else '_'))

/-! ### `DefaultHasher` (Rust std `SipHasher13` with zero keys)

`routes.rs` `package_cache_key` hashes the download URL with
`std::collections::hash_map::DefaultHasher`, which is SipHash-1-3 with both
keys zero; `Hash for str` feeds the UTF-8 bytes of the string followed by a
single `0xFF` byte.  The embedding below implements that hash over `Nat`
with explicit reduction modulo `2^64`. -/

/-- Truncate to 64 bits. -/
def wrap64 (x : Nat) : Nat := x % 2 ^ 64

/-- 64-bit left rotation (argument assumed `< 2^64`). -/
def rotl64 (x n : Nat) : Nat := wrap64 (x <<< n) ||| (x >>> (64 - n))

/-- The four SipHash state words. -/
structure SipState where
  v0 : Nat
  v1 : Nat
  v2 : Nat
  v3 : Nat

/-- One SipHash round. -/
def sipRound (s : SipState) : SipState :=
  let v0 := wrap64 (s.v0 + s.v1)
  let v1 := rotl64 s.v1 13
  let v1 := v1 ^^^ v0
  let v0 := rotl64 v0 32
  let v2 := wrap64 (s.v2 + s.v3)
  let v3 := rotl64 s.v3 16
  let v3 := v3 ^^^ v2
  let v0 := wrap64 (v0 + v3)
  let v3 := rotl64 v3 21
  let v3 := v3 ^^^ v0
  let v2 := wrap64 (v2 + v1)
  let v1 := rotl64 v1 17
  let v1 := v1 ^^^ v2
  let v2 := rotl64 v2 32
  ⟨v0, v1, v2, v3⟩

/-- Little-endian 64-bit word from up to eight bytes. -/
def leWord : List Nat → Nat
  | [] => 0
  | b :: rest => (b % 256) + 256 * leWord rest

/-- Feed one message word into the SipHash-1-3 state (one compression round). -/
def sipCompress (s : SipState) (m : Nat) : SipState :=
  let s := { s with v3 := s.v3 ^^^ m }
  let s := sipRound s
  { s with v0 := s.v0 ^^^ m }

/-- Process the full 8-byte blocks of the message. -/
def sipBlocks (s : SipState) : List Nat → SipState × List Nat
  | b0 :: b1 :: b2 :: b3 :: b4 :: b5 :: b6 :: b7 :: rest =>
      sipBlocks (sipCompress s (leWord [b0, b1, b2, b3, b4, b5, b6, b7])) rest
  | rest => (s, rest)

/-- SipHash-1-3 with keys `k0 = k1 = 0` over a byte list, as used by
Rust's `DefaultHasher`. -/
def siphash13 (msg : List Nat) : Nat :=
  let k0 := 0
  let k1 := 0
  let s : SipState :=
    ⟨k0 ^^^ 0x736f6d6570736575, k1 ^^^ 0x646f72616e646f6d,
     k0 ^^^ 0x6c7967656e657261, k1 ^^^ 0x7465646279746573⟩
  let (s, tail) := sipBlocks s msg
  let b := wrap64 ((msg.length % 256) <<< 56 + leWord tail)
  let s := sipCompress s b
  let s := { s with v2 := s.v2 ^^^ 0xff }
  let s := sipRound (sipRound (sipRound s))
  s.v0 ^^^ s.v1 ^^^ s.v2 ^^^ s.v3

/-- UTF-8 encoding of one scalar value. -/
def utf8Bytes (c : Char) : List Nat :=
  let n := c.toNat
  if n < 0x80 then [n]
  else if n < 0x800 then [0xC0 + n / 64, 0x80 + n % 64]
  else if n < 0x10000 then [0xE0 + n / 4096, 0x80 + n / 64 % 64, 0x80 + n % 64]
  else [0xF0 + n / 262144, 0x80 + n / 4096 % 64, 0x80 + n / 64 % 64, 0x80 + n % 64]

/-- UTF-8 bytes of a string. -/
def stringBytes (s : String) : List Nat :=
  (s.data.map utf8Bytes).flatten

/-- `Hash for str` under `DefaultHasher`: hash the UTF-8 bytes followed by
one `0xFF` terminator byte. -/
def defaultHashStr (s : String) : Nat :=
  siphash13 (stringBytes s ++ [0xff])

/-- One lowercase hexadecimal digit. -/
def hexDigit (n : Nat) : Char :=
  if n < 10 then Char.ofNat ('0'.toNat + n) else Char.ofNat ('a'.toNat + (n - 10))

/-- Rust `format "{:016x}"` of a 64-bit value: sixteen lowercase hex digits,
zero padded, most significant first. -/
def hex16 (n : Nat) : String :=
  String.mk (((List.range 16).reverse).map (fun i => hexDigit (n >>> (4 * i) % 16)))

/-- `routes.rs` `package_cache_key`: sanitized package name, `_`, then the
16-hex-digit `DefaultHasher` hash of the download URL. -/
def package_cache_key (pkg : Package) : String :=
  let url_hash := wrap64 (defaultHashStr pkg.download_url)
  sanitize_for_path pkg.package_name ++ "_" ++ hex16 url_hash

/-! ## Resumable download (src/download.rs)

`DownloadManager` performs network and filesystem effects.  The world record
`DlWorld` fixes the outcome of each effect for one `download_with_progress`
call: the HEAD probe result, the size of the destination file at entry, the
transport outcome and chunk stream of the plain and ranged GETs, and the
outcome of each fallible filesystem call (`Option String`: `none` = success,
`some msg` = failure with that message).  Chunk arrival times are world-supplied
milliseconds since the attempt started, driving the 100 ms throttle, speed and
ETA exactly as the source computes them (with `f64` modelled by `Rat`).
Observable effects are recorded as a `FetchAction` trace. -/

/-- `download.rs` `DownloadError` (payloads carry the rendered message). -/
inductive DownloadError where
  | HttpError (msg : String)
  | IoError (msg : String)
  | ZipError (msg : String)
  | DirectoryError (msg : String)
  | RangeNotSupported
deriving DecidableEq

/-- `thiserror` rendering of `DownloadError` (`e.to_string()`). -/
def DownloadError.message : DownloadError → String
  | .HttpError m => "HTTP request failed: " ++ m
  | .IoError m => "IO error: " ++ m
  | .ZipError m => "ZIP extraction failed: " ++ m
  | .DirectoryError m => "Directory error: " ++ m
  | .RangeNotSupported => "Server does not support range requests"

/-- One step of a streamed response body: a data chunk of `size` bytes arriving
`now_ms` milliseconds after the attempt started, a transport error, or a local
write error. -/
inductive ChunkStep where
  | data (size : Nat) (now_ms : Nat)
  | httpFail (msg : String)
  | ioFail (msg : String)
deriving DecidableEq

/-- Recorded observable effects of one fetch. -/
inductive FetchAction where
  | headReq
  | getReq
  | rangeReq (start : Nat)
  | removePartial
  | createFile
  | openAppend
  | writeChunk (size : Nat)
deriving DecidableEq

/-- The world one `download_with_progress` call runs against. -/
structure DlWorld where
  /-- Outcome of `create_dir_all` on the destination's parent. -/
  mkdir_fail : Option String
  /-- `get_expected_size`: `content_length` of a successful HEAD; `none` when
  the HEAD failed or carried no length. -/
  head_content_length : Option Nat
  /-- `fs::metadata(output_path)` at entry: size of the destination, if any. -/
  fs_size : Option Nat
  /-- Transport outcome of the plain GET `send()`. -/
  get_fail : Option String
  /-- `content_length` of the plain GET response. -/
  get_content_length : Option Nat
  /-- Body stream of the plain GET. -/
  get_chunks : List ChunkStep
  /-- Outcome of `File::create`. -/
  create_fail : Option String
  /-- Transport outcome of the ranged GET `send()`. -/
  range_fail : Option String
  /-- `status().is_success()` of the ranged GET response. -/
  range_status_success : Bool
  /-- Body stream of the ranged GET. -/
  range_chunks : List ChunkStep
  /-- Outcome of `OpenOptions::new().write(true).open`. -/
  open_fail : Option String

/-- `download.rs` `DownloadManager::is_download_complete`. -/
def is_download_complete (fs_size : Option Nat) (expected_size : Nat) : Bool :=
  if expected_size == 0 then false
  else match fs_size with
    | some len => len == expected_size
    | none => false

/-- A progress event of the shared streaming loop of `download_fresh` /
`download_resume`: speed is bytes of the current attempt over elapsed seconds,
ETA the remaining bytes over that speed. -/
def streamEvent (package_name : String) (total_bytes downloaded session_base now_ms : Nat) :
    ProgressEvent :=
  let elapsed : Rat := (now_ms : Rat) / 1000
  let speed : Rat := if 0 < elapsed then ((downloaded - session_base : Nat) : Rat) / elapsed else 0
  let eta : Option Nat :=
    if 0 < speed ∧ downloaded < total_bytes then
      some (((total_bytes - downloaded : Nat) : Rat) / speed).floor.toNat
    else none
  let percentage : Rat := if 0 < total_bytes then (downloaded : Rat) / (total_bytes : Rat) * 100 else 0
  .Download ⟨package_name, downloaded, total_bytes, percentage, speed, eta, "downloading"⟩

/-- The `while let Some(chunk) = stream.next()` loop shared by
`download_fresh` and `download_resume`: write each chunk, emit a throttled
progress event when more than 100 ms passed since the last one or the final
byte arrived.  Returns the actions, events, and the byte count reached (or the
error that aborted the loop). -/
def streamLoop (package_name : String) (total_bytes session_base : Nat) :
    List ChunkStep → Nat → Nat → List FetchAction × List ProgressEvent × Except DownloadError Nat
  | [], downloaded, _ => ([], [], .ok downloaded)
  | .httpFail msg :: _, _, _ => ([], [], .error (.HttpError msg))
  | .ioFail msg :: _, _, _ => ([], [], .error (.IoError msg))
  | .data size now_ms :: rest, downloaded, last_update =>
    let downloaded := downloaded + size
    if 100 < now_ms - last_update ∨ downloaded == total_bytes then
      let ev := streamEvent package_name total_bytes downloaded session_base now_ms
      let (acts, evs, r) := streamLoop package_name total_bytes session_base rest downloaded now_ms
      (.writeChunk size :: acts, ev :: evs, r)
    else
      let (acts, evs, r) := streamLoop package_name total_bytes session_base rest downloaded last_update
      (.writeChunk size :: acts, evs, r)

/-- The final 100 % "completed" event both loops emit. -/
def completedEvent (package_name : String) (downloaded : Nat) : ProgressEvent :=
  .Download ⟨package_name, downloaded, downloaded, 100, 0, none, "completed"⟩

/-- `download.rs` `DownloadManager::download_fresh`. -/
def download_fresh (w : DlWorld) (package_name : String) :
    List FetchAction × List ProgressEvent × Except DownloadError Unit :=
  match w.get_fail with
  | some msg => ([.getReq], [], .error (.HttpError msg))
  | none =>
    let total_bytes := w.get_content_length.getD 0
    let startEv : ProgressEvent :=
      .Download ⟨package_name, 0, total_bytes, 0, 0, none, "downloading"⟩
    match w.create_fail with
    | some msg => ([.getReq], [startEv], .error (.IoError msg))
    | none =>
      let (acts, evs, r) := streamLoop package_name total_bytes 0 w.get_chunks 0 0
      match r with
      | .error e => (.getReq :: .createFile :: acts, startEv :: evs, .error e)
      | .ok downloaded =>
        (.getReq :: .createFile :: acts,
         startEv :: evs ++ [completedEvent package_name downloaded], .ok ())

/-- `download.rs` `DownloadManager::download_resume`. -/
def download_resume (w : DlWorld) (package_name : String)
    (partial_size total_bytes : Nat) :
    List FetchAction × List ProgressEvent × Except DownloadError Unit :=
  match w.range_fail with
  | some msg => ([.rangeReq partial_size], [], .error (.HttpError msg))
  | none =>
    if ¬ w.range_status_success then
      ([.rangeReq partial_size], [], .error .RangeNotSupported)
    else
      let resumeEv : ProgressEvent :=
        .Download ⟨package_name, partial_size, total_bytes,
          (if 0 < total_bytes then (partial_size : Rat) / (total_bytes : Rat) * 100 else 0),
          0, none, "resuming"⟩
      match w.open_fail with
      | some msg => ([.rangeReq partial_size], [resumeEv], .error (.IoError msg))
      | none =>
        let (acts, evs, r) :=
          streamLoop package_name total_bytes partial_size w.range_chunks partial_size 0
        match r with
        | .error e => (.rangeReq partial_size :: .openAppend :: acts, resumeEv :: evs, .error e)
        | .ok downloaded =>
          (.rangeReq partial_size :: .openAppend :: acts,
           resumeEv :: evs ++ [completedEvent package_name downloaded], .ok ())

/-- `download.rs` `DownloadManager::download_with_progress`. -/
def download_with_progress (w : DlWorld) (package_name : String) :
    List FetchAction × List ProgressEvent × Except DownloadError Unit :=
  match w.mkdir_fail with
  | some msg => ([], [], .error (.DirectoryError msg))
  | none =>
    let expected_size := w.head_content_length.getD 0
    if is_download_complete w.fs_size expected_size then
      ([.headReq],
       [.Download ⟨package_name, expected_size, expected_size, 100, 0, none,
          "already downloaded"⟩], .ok ())
    else
      let partial_size := w.fs_size.getD 0
      let supports_range := 0 < expected_size && 0 < partial_size
      if supports_range && partial_size < expected_size then
        let (acts, evs, r) := download_resume w package_name partial_size expected_size
        (.headReq :: acts, evs, r)
      else
        let (acts, evs, r) := download_fresh w package_name
        if 0 < partial_size then (.headReq :: .removePartial :: acts, evs, r)
        else (.headReq :: acts, evs, r)

/-! ## Archive extraction (src/download.rs)

An archive is a list of members.  The zip crate's `enclosed_name`
(path-traversal sanitization, outside this repository) is modelled as a
world-supplied field: `some p` is the safe relative path, `none` a member whose
path cannot be resolved under the target directory.  The local filesystem is a
map from path to file size plus a set of existing directories; member-level
writes are modelled as always succeeding (the claims under verification concern
runs in which they do), while the fallible archive open and top-level directory
creation keep their error outcomes. -/

/-- One archive member as `ZipArchive` presents it. -/
structure ZipMember where
  /-- `zip_file.name()`: the raw stored name (directories end in `/`). -/
  name : String
  /-- `zip_file.enclosed_name()`: safe relative path, or `none`. -/
  enclosed : Option String
  /-- `zip_file.size()`: declared uncompressed size in bytes. -/
  size : Nat

/-- Local filesystem state: file sizes and existing directories. -/
structure FsState where
  files : String → Option Nat
  dirs : String → Bool

/-- `Path::new(dir).join(p)`. -/
def pathJoin (dir p : String) : String := dir ++ "/" ++ p

/-- Rust `str::ends_with`, at the character-list level. -/
def strEndsWith (s suffix : String) : Bool :=
  suffix.data.isSuffixOf s.data

/-- Split a character list on a separator character (the character-list
rendering of `str::split`). -/
def splitOnChar (c : Char) : List Char → List (List Char)
  | [] => [[]]
  | x :: xs =>
    if x = c then [] :: splitOnChar c xs
    else
      match splitOnChar c xs with
      | [] => [[x]]
      | h :: t => (x :: h) :: t

/-- Last path component of a relative path. -/
def lastComponent (p : String) : String :=
  String.mk ((splitOnChar '/' p.data).getLastD p.data)

/-- Rust `Path::extension`: the part of the final component after its last
`.`, `none` when there is no `.` or the stem before it is empty. -/
def pathExtension (p : String) : Option String :=
  let file := lastComponent p
  let parts := splitOnChar '.' file.data
  match parts with
  | [] => none
  | [_] => none
  | first :: _ :: _ =>
    if first = [] ∧ parts.length = 2 then none
    else some (String.mk (parts.getLastD []))

/-- Join path components with `/`. -/
def joinComponents : List (List Char) → List Char
  | [] => []
  | [c] => c
  | c :: rest => c ++ '/' :: joinComponents rest

/-- Parent directory of a joined output path (drop the last component). -/
def parentDir (p : String) : String :=
  String.mk (joinComponents ((splitOnChar '/' p.data).dropLast))

/-- Does this output path carry a recognized raster extension
(`ext == "tif" || ext == "tiff"`)? -/
def isRasterPath (p : String) : Bool :=
  match pathExtension p with
  | some e => e == "tif" || e == "tiff"
  | none => false

/-- The loop body of `check_extraction_complete`: walk the members; `none`
as soon as a non-directory member is unsafe, missing on disk, or has the wrong
size; otherwise collect the raster outputs in member order. -/
def checkMembers (fs : FsState) (output_dir : String) : List ZipMember → Option (List String)
  | [] => some []
  | m :: rest =>
    if strEndsWith m.name "/" then checkMembers fs output_dir rest
    else
      match m.enclosed with
      | none => none
      | some p =>
        let outpath := pathJoin output_dir p
        match fs.files outpath with
        | none => none
        | some actual_size =>
          if actual_size ≠ m.size then none
          else
            (checkMembers fs output_dir rest).map
              (fun l => if isRasterPath outpath then outpath :: l else l)

/-- The world one `extract_zip` call runs against. -/
structure ExtractWorld where
  /-- Outcome of `File::open(zip_path)`. -/
  open_fail : Option String
  /-- Outcome of `ZipArchive::new`. -/
  archive_fail : Option String
  /-- Outcome of `create_dir_all(output_dir)`. -/
  outdir_mkdir_fail : Option String
  /-- The archive's members, in index order. -/
  members : List ZipMember

/-- `download.rs` `check_extraction_complete`: `none` when the archive cannot
be opened, any non-directory member fails the size check, or no raster member
was found. -/
def check_extraction_complete (w : ExtractWorld) (fs : FsState) (output_dir : String) :
    Option (List String) :=
  if w.open_fail.isSome ∨ w.archive_fail.isSome then none
  else
    match checkMembers fs output_dir w.members with
    | none => none
    | some tiff_files => if tiff_files.isEmpty then none else some tiff_files

/-- A file write performed by extraction, with the size the path had before. -/
structure WriteRec where
  path : String
  size : Nat
  pre : Option Nat
deriving DecidableEq

/-- Intermediate state of the extraction loop. -/
structure ExtractLoopState where
  fs : FsState
  writes : List WriteRec
  events : List ProgressEvent
  extracted : List String
  last_reported : Rat

/-- The extraction progress event (`status: "Extracting..."`). -/
def extractingEvent (package_name : String) (done total : Nat) (percentage : Rat) :
    ProgressEvent :=
  .Download ⟨package_name, done, total, percentage, 0, none, "Extracting..."⟩

/-- Throttled per-member progress emission at the bottom of the extraction
loop: emit when at least five points above the last report or at the final
member. -/
def reportStep (package_name : String) (total i : Nat) (st : ExtractLoopState) :
    ExtractLoopState :=
  let percentage : Rat := ((i + 1 : Nat) : Rat) / (total : Rat) * 100
  if 5 ≤ percentage - st.last_reported ∨ i = total - 1 then
    { st with events := st.events ++ [extractingEvent package_name (i + 1) total percentage],
              last_reported := percentage }
  else st

/-- One member of the extraction loop: skip unsafe names entirely (`continue`),
create directories for directory members, and write any non-directory member
whose on-disk size differs from its declared size. -/
def extractMember (output_dir : String) (m : ZipMember) (st : ExtractLoopState) :
    ExtractLoopState :=
  match m.enclosed with
  | none => st
  | some p =>
    let outpath := pathJoin output_dir p
    if strEndsWith m.name "/" then
      { st with fs := { st.fs with dirs := fun d => d == outpath || st.fs.dirs d } }
    else
      let parent := parentDir outpath
      let fs1 : FsState :=
        if st.fs.dirs parent then st.fs
        else { st.fs with dirs := fun d => d == parent || st.fs.dirs d }
      let pre := fs1.files outpath
      let needs_extraction := pre ≠ some m.size
      let fs2 : FsState :=
        if needs_extraction then
          { fs1 with files := fun q => if q = outpath then some m.size else fs1.files q }
        else fs1
      let writes := if needs_extraction then st.writes ++ [⟨outpath, m.size, pre⟩] else st.writes
      let extracted :=
        if isRasterPath outpath then st.extracted ++ [outpath] else st.extracted
      { st with fs := fs2, writes := writes, extracted := extracted }

/-- The extraction loop over members `i, i+1, ...`. -/
def extractLoop (package_name output_dir : String) (total : Nat) :
    List ZipMember → Nat → ExtractLoopState → ExtractLoopState
  | [], _, st => st
  | m :: rest, i, st =>
    match m.enclosed with
    | none => extractLoop package_name output_dir total rest (i + 1) st
    | some _ =>
      let st := extractMember output_dir m st
      let st := reportStep package_name total i st
      extractLoop package_name output_dir total rest (i + 1) st

/-- Result of one `extract_zip` call. -/
structure ExtractResult where
  fs : FsState
  writes : List WriteRec
  events : List ProgressEvent
  result : Except DownloadError (List String)

/-- The single 100 % "already extracted" event. -/
def alreadyExtractedEvent (package_name : String) : ProgressEvent :=
  .Download ⟨package_name, 1, 1, 100, 0, none, "already extracted"⟩

/-- `download.rs` `extract_zip`. -/
def extract_zip (w : ExtractWorld) (fs : FsState) (output_dir package_name : String) :
    ExtractResult :=
  match check_extraction_complete w fs output_dir with
  | some extracted =>
    { fs := fs, writes := [], events := [alreadyExtractedEvent package_name],
      result := .ok extracted }
  | none =>
    match w.open_fail with
    | some msg => { fs := fs, writes := [], events := [], result := .error (.IoError msg) }
    | none =>
      match w.archive_fail with
      | some msg => { fs := fs, writes := [], events := [], result := .error (.ZipError msg) }
      | none =>
        match w.outdir_mkdir_fail with
        | some msg =>
          { fs := fs, writes := [], events := [], result := .error (.DirectoryError msg) }
        | none =>
          let fs0 : FsState := { fs with dirs := fun d => d == output_dir || fs.dirs d }
          let total := w.members.length
          let startEv := extractingEvent package_name 0 total 0
          let st := extractLoop package_name output_dir total w.members 0
            { fs := fs0, writes := [], events := [startEv], extracted := [], last_reported := 0 }
          { fs := st.fs, writes := st.writes, events := st.events, result := .ok st.extracted }

/-! ## Raster merge (src/processing.rs)

`merge_to_cog` shells out to `gdalinfo`, `gdalwarp` and `gdal_translate`.
Each external command's outcome is a world-supplied `CmdResult`; the JSON
band-type parsing of the `gdalinfo` output (`parse_band_data_type`, a
`serde_json` traversal of external-tool output) is modelled by the world field
`gdalinfo_band_type`.  Invocations are recorded as a `GdalCmd` trace. -/

/-- Outcome of spawning one external command. -/
structure CmdResult where
  /-- `none` = the process ran; `some msg` = `output()` returned `io::Error`. -/
  io_fail : Option String
  /-- `status.success()`. -/
  success : Bool
  /-- Captured standard error (used in failure messages). -/
  stderr : String

/-- `processing.rs` `ProcessingError`. -/
inductive ProcessingError where
  | GdalNotFound (msg : String)
  | GdalError (msg : String)
  | NoInputFiles
  | IoError (msg : String)
deriving DecidableEq

/-- `thiserror` rendering of `ProcessingError` (`e.to_string()`). -/
def ProcessingError.message : ProcessingError → String
  | .GdalNotFound m => "GDAL not found: " ++ m
  | .GdalError m => "GDAL operation failed: " ++ m
  | .NoInputFiles => "No input files provided"
  | .IoError m => "IO error: " ++ m

/-- `processing.rs` `CompressionType`. -/
inductive CompressionType where
  | Zstd
  | Lzma
  | Deflate
  | Lzw
deriving DecidableEq

/-- `CompressionType::from_str`: unrecognized values default to `Deflate`. -/
def CompressionType.fromStr (s : String) : CompressionType :=
  match String.mk (s.data.map Char.toLower) with
  | "zstd" => .Zstd
  | "lzma" => .Lzma
  | "lzw" => .Lzw
  | _ => .Deflate

/-- `CompressionType::to_gdal_string`. -/
def CompressionType.to_gdal_string : CompressionType → String
  | .Zstd => "ZSTD"
  | .Lzma => "LZMA"
  | .Deflate => "DEFLATE"
  | .Lzw => "LZW"

/-- `processing.rs` `ClipExtent` (`f64` corners, carried opaquely). -/
structure ClipExtent where
  min_x : Float
  min_y : Float
  max_x : Float
  max_y : Float

/-- Recorded external-tool invocations. -/
inductive GdalCmd where
  | gdalinfo (path : String)
  | gdalwarp (inputs : List String) (clip : Option ClipExtent) (compress : String)
      (predictor : Option Nat) (dest : String)
  | gdal_translate (src dest : String) (compress : String) (predictor : Option Nat)

/-- The world one `merge_to_cog` call runs against. -/
structure MergeWorld where
  gdalinfo_result : CmdResult
  /-- `parse_band_data_type` applied to the `gdalinfo` JSON output. -/
  gdalinfo_band_type : Option String
  warp_result : CmdResult
  translate_result : CmdResult

/-- `processing.rs` `is_float_raster_type`. -/
def is_float_raster_type (data_type : String) : Bool :=
  data_type == "Float32" || data_type == "Float64" ||
    data_type == "CFloat32" || data_type == "CFloat64"

/-- `processing.rs` `detect_predictor_option` (with `detect_raster_data_type`
inlined; every failure collapses to `none` through `.ok()?`): `PREDICTOR=3`
for floating-point rasters, nothing otherwise. -/
def detect_predictor_option (w : MergeWorld) (input_file : Option String) : Option Nat :=
  match input_file with
  | none => none
  | some _ =>
    if w.gdalinfo_result.io_fail.isSome then none
    else if ¬ w.gdalinfo_result.success then none
    else
      match w.gdalinfo_band_type with
      | none => none
      | some t => if is_float_raster_type t then some 3 else none

/-- Strip every trailing repetition of `suf` from a character list. -/
def stripSuffixRepeat (suf : List Char) (l : List Char) : List Char :=
  if h : suf ≠ [] ∧ suf.isSuffixOf l ∧ l ≠ [] then
    stripSuffixRepeat suf (l.take (l.length - suf.length))
  else l
termination_by l.length
decreasing_by
  have hsuf : 0 < suf.length := List.length_pos.mpr h.1
  have hl : 0 < l.length := List.length_pos.mpr h.2.2
  simp only [List.length_take]
  omega

/-- Rust `str::trim_end_matches`: strip every trailing repetition of `suf`. -/
def trimEndMatches (s suf : String) : String :=
  String.mk (stripSuffixRepeat suf.data s.data)

/-- `processing.rs` `merge_to_cog`. -/
def merge_to_cog (w : MergeWorld) (input_files : List String) (output_path : String)
    (clip_extent : Option ClipExtent) (compression : CompressionType) :
    List GdalCmd × List ProgressEvent × Except ProcessingError Unit :=
  if input_files.isEmpty then ([], [], .error .NoInputFiles)
  else
    let ev0 : ProgressEvent := .Processing ⟨"merging", 0, "Starting merge process..."⟩
    let compress_opt := "COMPRESS=" ++ compression.to_gdal_string
    let predictor := detect_predictor_option w input_files.head?
    let infoCmds : List GdalCmd :=
      match input_files.head? with
      | some f => [.gdalinfo f]
      | none => []
    let temp_path := trimEndMatches output_path ".tif" ++ ".temp.tif"
    let ev10 : ProgressEvent := .Processing ⟨"merging", 10, "Merging and clipping rasters..."⟩
    let warpCmd : GdalCmd := .gdalwarp input_files clip_extent compress_opt predictor temp_path
    match w.warp_result.io_fail with
    | some msg => (infoCmds ++ [warpCmd], [ev0, ev10], .error (.IoError msg))
    | none =>
      if ¬ w.warp_result.success then
        (infoCmds ++ [warpCmd], [ev0, ev10],
         .error (.GdalError ("gdalwarp failed: " ++ w.warp_result.stderr)))
      else
        let ev60 : ProgressEvent :=
          .Processing ⟨"creating_cog", 60, "Creating Cloud Optimized GeoTIFF..."⟩
        let translateCmd : GdalCmd :=
          .gdal_translate temp_path output_path compress_opt predictor
        match w.translate_result.io_fail with
        | some msg =>
          (infoCmds ++ [warpCmd, translateCmd], [ev0, ev10, ev60], .error (.IoError msg))
        | none =>
          if ¬ w.translate_result.success then
            (infoCmds ++ [warpCmd, translateCmd], [ev0, ev10, ev60],
             .error (.GdalError ("gdal_translate failed: " ++ w.translate_result.stderr)))
          else
            let ev100 : ProgressEvent := .Processing ⟨"completed", 100, "Processing complete!"⟩
            (infoCmds ++ [warpCmd, translateCmd], [ev0, ev10, ev60, ev100], .ok ())

/-! ## Job orchestration (src/routes.rs)

`run_download_job` loops over the packages, downloading and extracting each,
then merges and publishes a final `Complete` event.  `JobWorld` supplies the
per-package download and extraction worlds (indexed by package position) and
the merge world.  The spawned task in `start_download` only logs a failed job
to stderr; `job_task_events` is the event trace the task publishes on the
job's broadcast channel. -/

/-- The world one `run_download_job` call runs against. -/
structure JobWorld where
  dlw : Nat → DlWorld
  exw : Nat → ExtractWorld
  exfs : Nat → FsState
  merge : MergeWorld

/-- `api_types.rs` `ClipExtentRequest`. -/
structure ClipExtentRequest where
  min_x : Float
  min_y : Float
  max_x : Float
  max_y : Float

/-- The package loop of `run_download_job`: download then extract each package
in order, accumulating events and raster files, aborting on the first error
(`?` with `map_err(|e| e.to_string())`). -/
def runPackages (w : JobWorld) (zip_cache_dir extract_cache_dir : String) :
    List Package → Nat → List ProgressEvent × Except String (List String)
  | [], _ => ([], .ok [])
  | pkg :: rest, i =>
    let cache_key := package_cache_key pkg
    let _zip_path := zip_cache_dir ++ "/" ++ cache_key ++ ".zip"
    let extract_dir := extract_cache_dir ++ "/" ++ cache_key
    let (_acts, devs, dres) := download_with_progress (w.dlw i) pkg.package_name
    match dres with
    | .error e => (devs, .error e.message)
    | .ok _ =>
      let er := extract_zip (w.exw i) (w.exfs i) extract_dir pkg.package_name
      match er.result with
      | .error e => (devs ++ er.events, .error e.message)
      | .ok tiff_files =>
        let (revs, rres) := runPackages w zip_cache_dir extract_cache_dir rest (i + 1)
        (devs ++ er.events ++ revs, rres.map (fun l => tiff_files ++ l))

/-- `routes.rs` `run_download_job`. -/
def run_download_job (w : JobWorld) (packages : List Package)
    (zip_cache_dir extract_cache_dir output_path : String)
    (clip_extent : Option ClipExtentRequest) (compression : String) :
    List ProgressEvent × Except String Unit :=
  let (pevs, pres) := runPackages w zip_cache_dir extract_cache_dir packages 0
  match pres with
  | .error e => (pevs, .error e)
  | .ok all_tiff_files =>
    let clip := clip_extent.map (fun c => ClipExtent.mk c.min_x c.min_y c.max_x c.max_y)
    let comp := CompressionType.fromStr compression
    let (_cmds, mevs, mres) := merge_to_cog w.merge all_tiff_files output_path clip comp
    match mres with
    | .error e => (pevs ++ mevs, .error e.message)
    | .ok _ =>
      (pevs ++ mevs ++ [.Complete "dtm_output.tif"], .ok ())

/-- The events the spawned background task of `start_download` publishes on
the job's channel: exactly those of `run_download_job` — a failure is only
logged to stderr, nothing further is published. -/
def job_task_events (w : JobWorld) (packages : List Package)
    (zip_cache_dir extract_cache_dir output_path : String)
    (clip_extent : Option ClipExtentRequest) (compression : String) : List ProgressEvent :=
  (run_download_job w packages zip_cache_dir extract_cache_dir output_path
    clip_extent compression).1

/-- First `n` characters of a string (`&s[..n]` on the ASCII job id). -/
def takeChars (n : Nat) (s : String) : String := String.mk (s.data.take n)

/-- `routes.rs` `start_download`: the registered output filename,
`format "dtm_output_{}.tif"` of the first eight characters of the job id. -/
def output_filename_for (download_id : String) : String :=
  "dtm_output_" ++ takeChars 8 download_id ++ ".tif"

/-! ## Job registry (src/routes.rs `AppState`)

`AppState.downloads` is a `HashMap<String, Arc<RwLock<Option<DownloadJob>>>>`.
It is modelled as an association list where registration prepends; lookup takes
the most recent binding, matching `HashMap::insert` overwrite semantics. -/

/-- The registered state of one job, `routes.rs` `DownloadJob` (the broadcast
sender is identified by the job's entry itself). -/
structure DownloadJobModel where
  output_path : String
  filename : String
deriving DecidableEq

/-- The registry map of `AppState`. -/
abbrev RegistryState := List (String × Option DownloadJobModel)

/-- `state.downloads.get(&id)` with most-recent-insert-wins semantics. -/
def lookupId : RegistryState → String → Option (Option DownloadJobModel)
  | [], _ => none
  | (k, v) :: rest, id => if k = id then some v else lookupId rest id

/-- `start_download`'s registration: `state.downloads.insert(download_id, job)`. -/
def registerJob (st : RegistryState) (id : String) (job : DownloadJobModel) : RegistryState :=
  (id, some job) :: st

/-- The lookup phase of `routes.rs` `download_progress`: unknown id or a
vacated job slot report not-found before any subscription happens. -/
def download_progress_lookup (st : RegistryState) (id : String) :
    Except String DownloadJobModel :=
  match lookupId st id with
  | none => .error "Download not found"
  | some none => .error "Job not found"
  | some (some j) => .ok j

/-- The lookup phase of `routes.rs` `download_file`: unknown id or a vacated
job slot report not-found before the output file is opened. -/
def download_file_lookup (st : RegistryState) (id : String) :
    Except String (String × String) :=
  match lookupId st id with
  | none => .error "Download not found"
  | some none => .error "Job not found"
  | some (some j) => .ok (j.output_path, j.filename)

/-- Registry states reachable by a sequence of `start_download` registrations,
together with the list of job ids those calls returned. -/
inductive ReachableRegistry : List String → RegistryState → Prop
  | init : ReachableRegistry [] []
  | register (id : String) (job : DownloadJobModel) {ids : List String} {st : RegistryState} :
      ReachableRegistry ids st → ReachableRegistry (id :: ids) (registerJob st id job)

/-! ## Derived descriptions used by the theorems -/

/-- The raster outputs an archive yields under a target directory: the joined
output paths of its safely-named, non-directory members with a `tif`/`tiff`
extension, in member order. -/
def raster_outputs (dir : String) (members : List ZipMember) : List String :=
  members.filterMap fun m =>
    if strEndsWith m.name "/" then none
    else
      match m.enclosed with
      | none => none
      | some p => if isRasterPath (pathJoin dir p) then some (pathJoin dir p) else none

/-- Download- or processing-stage events, as opposed to the terminal
`Complete`/`Error` events. -/
def isStageEvent : ProgressEvent → Bool
  | .Download _ => true
  | .Processing _ => true
  | .Complete _ => false
  | .Error _ => false

/-! ## Sample worlds for concrete witnesses -/

/-- A download world whose plain GET fails at transport level. -/
def sampleFailingDlWorld : DlWorld :=
  ⟨none, none, none, some "error sending request", none, [], none, none, true, [], none⟩

/-- An extraction world over an empty archive. -/
def sampleEmptyExtractWorld : ExtractWorld := ⟨none, none, none, []⟩

/-- An empty filesystem. -/
def emptyFs : FsState := ⟨fun _ => none, fun _ => false⟩

/-- A merge world in which every external command succeeds. -/
def sampleMergeWorld : MergeWorld := ⟨⟨none, true, ""⟩, none, ⟨none, true, ""⟩, ⟨none, true, ""⟩⟩

/-- A job world whose every package download fails at transport level. -/
def sampleFailingJobWorld : JobWorld :=
  ⟨fun _ => sampleFailingDlWorld, fun _ => sampleEmptyExtractWorld, fun _ => emptyFs,
   sampleMergeWorld⟩

/-- A sample package. -/
def samplePackage : Package :=
  ⟨"Cochrane A", 1.0, 0.5, "https://example.com/a.zip", "OMAFRA Lidar 2016-18",
   some "2016-18", 1.0, .Polygon []⟩

/-! ## C7 — path sanitization -/

/-- C7: `sanitize_for_path` preserves the character length, outputs only ASCII
alphanumerics, `-` and `_`, replaces each disallowed character one-for-one by
`_`, and keeps every allowed character unchanged. -/
theorem sanitize_for_path_char_by_char (s : String) :
    (sanitize_for_path s).length = s.length ∧
    (∀ c ∈ (sanitize_for_path s).data,
      (is_ascii_alphanumeric c || c == '-' || c == '_') = true) ∧
    (sanitize_for_path s).data = s.data.map
      (fun c => if is_ascii_alphanumeric c || c == '-' || c == '_' then c else '_') := by
  refine ⟨?_, ?_, ?_⟩
  · rw [sanitize_for_path, String.length_mk]
    exact (List.length_map _ _).trans rfl
  · intro c hc
    simp only [sanitize_for_path, List.mem_map] at hc
    obtain ⟨a, -, rfl⟩ := hc
    by_cases h : (is_ascii_alphanumeric a || a == '-' || a == '_') = true
    · simp [h]
    · simp [h]
  · rfl

/-- C7 witness: the theorem instantiated on `"A/B C"`, with the membership
hypothesis discharged on the replaced character `_`. -/
theorem sanitize_for_path_char_by_char_witness :
    (is_ascii_alphanumeric '_' || '_' == '-' || '_' == '_') = true :=
  (sanitize_for_path_char_by_char "A/B C").2.1 '_' (by decide)

/-! ## C2 — content cache key -/

/-- A package whose name differs from `samplePackage` but whose download URL
is the same. -/
def samePackageOtherName : Package :=
  { samplePackage with package_name := "Dryden B" }

/-- A package agreeing with `samplePackage` on name and URL but differing in
its other attributes. -/
def samePackageOtherAttrs : Package :=
  { samplePackage with project := "LEAP 2009", size_gb := 2.5, year_range := none }

/-- C2 counterexample: these two packages share a download URL yet receive
different cache keys, because the key embeds the sanitized package name as
its prefix — refuting the claim that the key depends on the URL alone. -/
theorem package_cache_key_differs_for_same_url :
    package_cache_key samplePackage ≠ package_cache_key samePackageOtherName := by decide

/-- C2 amended: the cache key is a pure function of the package's name and
download URL — two packages agreeing on both receive the same key whatever
their other attributes. -/
theorem package_cache_key_of_name_and_url (p q : Package)
    (hurl : p.download_url = q.download_url)
    (hname : p.package_name = q.package_name) :
    package_cache_key p = package_cache_key q := by
  simp [package_cache_key, hurl, hname]

/-- C2 witness: packages differing in every attribute except name and URL
share a cache key. -/
theorem package_cache_key_of_name_and_url_witness :
    package_cache_key samplePackage = package_cache_key samePackageOtherAttrs :=
  package_cache_key_of_name_and_url samplePackage samePackageOtherAttrs rfl rfl

/-! ## C9 — job registry -/

/-- C9: in every reachable registry state, looking up a job id that no
`start_download` call returned reports not-found on both the progress and the
file endpoints, and the ids present in the registry are exactly those returned
by prior `start_download` calls. -/
theorem registry_ids_exactly_registered (ids : List String) (st : RegistryState)
    (hreach : ReachableRegistry ids st) :
    (∀ id, id ∉ ids →
      download_progress_lookup st id = .error "Download not found" ∧
      download_file_lookup st id = .error "Download not found") ∧
    (∀ id, (lookupId st id).isSome = true ↔ id ∈ ids) := by
  induction hreach with
  | init =>
    refine ⟨fun id _ => ⟨rfl, rfl⟩, fun id => ?_⟩
    simp [lookupId]
  | register id0 job hprev ih =>
    obtain ⟨ihmiss, ihmem⟩ := ih
    constructor
    · intro id hid
      have hne : id0 ≠ id := fun h => hid (h ▸ List.mem_cons_self id0 _)
      have hid' : id ∉ _ := fun h => hid (List.mem_cons_of_mem id0 h)
      refine ⟨?_, ?_⟩
      · simpa [download_progress_lookup, registerJob, lookupId, hne] using (ihmiss id hid').1
      · simpa [download_file_lookup, registerJob, lookupId, hne] using (ihmiss id hid').2
    · intro id
      by_cases h : id0 = id
      · subst h
        simp [registerJob, lookupId]
      · have h' : id ≠ id0 := fun hh => h hh.symm
        simpa [registerJob, lookupId, h, h'] using ihmem id

/-- A sample registered job. -/
def sampleJob : DownloadJobModel := ⟨"/tmp/x/dtm_output_123e4567.tif", "dtm_output_123e4567.tif"⟩

/-- C9 witness: after registering `"job-1"`, looking up `"job-2"` reports
not-found. -/
theorem registry_ids_exactly_registered_witness :
    download_progress_lookup (registerJob [] "job-1" sampleJob) "job-2" =
      .error "Download not found" :=
  ((registry_ids_exactly_registered ["job-1"] (registerJob [] "job-1" sampleJob)
    (ReachableRegistry.register "job-1" sampleJob ReachableRegistry.init)).1
    "job-2" (by decide)).1

/-! ## C8 — merge with no inputs -/

/-- C8: `merge_to_cog` returns the missing-input error exactly when its input
list is empty, and in that case invokes no external command and emits no
event. -/
theorem merge_no_input_error_iff_empty (w : MergeWorld) (input_files : List String)
    (output_path : String) (clip : Option ClipExtent) (comp : CompressionType) :
    ((merge_to_cog w input_files output_path clip comp).2.2 = .error .NoInputFiles ↔
      input_files = []) ∧
    (input_files = [] →
      merge_to_cog w input_files output_path clip comp = ([], [], .error .NoInputFiles)) := by
  constructor
  · constructor
    · intro h
      cases input_files with
      | nil => rfl
      | cons a l =>
        exfalso
        revert h
        simp only [merge_to_cog, List.isEmpty_cons, Bool.false_eq_true, if_false]
        cases hw : w.warp_result.io_fail with
        | some msg => simp
        | none =>
          by_cases hws : w.warp_result.success
          · cases ht : w.translate_result.io_fail with
            | some msg => simp [hws]
            | none =>
              by_cases hts : w.translate_result.success
              · simp [hws, hts]
              · simp [hws, hts]
          · simp [hws]
    · intro h
      subst h
      simp [merge_to_cog]
  · intro h
    subst h
    simp [merge_to_cog]

/-- C8 witness: the empty input list at a concrete world yields exactly the
missing-input error with no commands and no events. -/
theorem merge_no_input_error_iff_empty_witness :
    merge_to_cog sampleMergeWorld [] "/tmp/out.tif" none .Deflate =
      ([], [], .error .NoInputFiles) :=
  (merge_no_input_error_iff_empty sampleMergeWorld [] "/tmp/out.tif" none .Deflate).2 rfl

/-! ## C4 — already-downloaded short circuit -/

/-- C4: when the probed remote size is known and non-zero and the destination
file already has exactly that size, `download_with_progress` performs only the
HEAD probe (no GET, no range GET, no byte transferred), emits exactly one
100 % "already downloaded" event, and returns success. -/
theorem download_already_complete_short_circuit (w : DlWorld) (package_name : String)
    (n : Nat) (hmk : w.mkdir_fail = none) (hhead : w.head_content_length = some n)
    (hn : n ≠ 0) (hfs : w.fs_size = some n) :
    download_with_progress w package_name =
      ([.headReq],
       [.Download ⟨package_name, n, n, 100, 0, none, "already downloaded"⟩], .ok ()) := by
  have hc : is_download_complete (some n) n = true := by
    simp [is_download_complete, hn]
  rw [download_with_progress, hmk]
  simp only [hhead, Option.getD_some, hfs, hc, if_true]

/-- A download world whose destination file already matches the known remote
size of ten bytes. -/
def sampleCompleteDlWorld : DlWorld :=
  ⟨none, some 10, some 10, none, none, [], none, none, true, [], none⟩

/-- C4 witness: the short circuit on a concrete world. -/
theorem download_already_complete_short_circuit_witness :
    download_with_progress sampleCompleteDlWorld "Cochrane A" =
      ([.headReq],
       [.Download ⟨"Cochrane A", 10, 10, 100, 0, none, "already downloaded"⟩], .ok ()) :=
  download_already_complete_short_circuit sampleCompleteDlWorld "Cochrane A" 10
    rfl rfl (by decide) rfl

/-! ## C6 — resumed fetch and the range-not-supported failure -/

/-- Every action of the streaming loop is a chunk write. -/
theorem streamLoop_actions_are_writes (package_name : String) (total_bytes session_base : Nat) :
    ∀ chunks downloaded last_update,
      ∀ a ∈ (streamLoop package_name total_bytes session_base chunks downloaded last_update).1,
        ∃ k, a = FetchAction.writeChunk k := by
  intro chunks
  induction chunks with
  | nil => intro downloaded last_update a ha; simp [streamLoop] at ha
  | cons step rest ih =>
    intro downloaded last_update a ha
    cases step with
    | httpFail msg => simp [streamLoop] at ha
    | ioFail msg => simp [streamLoop] at ha
    | data size now_ms =>
      rw [streamLoop] at ha
      by_cases hcond : 100 < now_ms - last_update ∨ (downloaded + size == total_bytes) = true
      · simp only [hcond, if_true] at ha
        rcases List.mem_cons.mp ha with h | h
        · exact ⟨size, h⟩
        · exact ih _ _ a h
      · simp only [hcond, if_false] at ha
        rcases List.mem_cons.mp ha with h | h
        · exact ⟨size, h⟩
        · exact ih _ _ a h

/-- The action trace of `download_resume` is the range request followed only
by the append-mode open and chunk writes. -/
theorem download_resume_action_shape (w : DlWorld) (package_name : String)
    (partial_size total_bytes : Nat) :
    ∃ tail, (download_resume w package_name partial_size total_bytes).1 =
        FetchAction.rangeReq partial_size :: tail ∧
      ∀ a ∈ tail, a = FetchAction.openAppend ∨ ∃ k, a = FetchAction.writeChunk k := by
  have hwr := streamLoop_actions_are_writes package_name total_bytes partial_size
    w.range_chunks partial_size 0
  rw [download_resume]
  cases hrf : w.range_fail with
  | some msg => exact ⟨[], rfl, by simp⟩
  | none =>
    by_cases hrs : w.range_status_success
    · simp only [hrs, Bool.not_true, if_false, ite_false, not_true_eq_false]
      cases hof : w.open_fail with
      | some msg => exact ⟨[], rfl, by simp⟩
      | none =>
        cases hr : (streamLoop package_name total_bytes partial_size
            w.range_chunks partial_size 0).2.2 with
        | error e =>
          refine ⟨FetchAction.openAppend ::
            (streamLoop package_name total_bytes partial_size
              w.range_chunks partial_size 0).1, by simp [hr], ?_⟩
          intro a ha
          rcases List.mem_cons.mp ha with h | h
          · exact Or.inl h
          · exact Or.inr (hwr a h)
        | ok downloaded =>
          refine ⟨FetchAction.openAppend ::
            (streamLoop package_name total_bytes partial_size
              w.range_chunks partial_size 0).1, by simp [hr], ?_⟩
          intro a ha
          rcases List.mem_cons.mp ha with h | h
          · exact Or.inl h
          · exact Or.inr (hwr a h)
    · simp only [hrs, Bool.not_false, if_true, not_false_eq_true]
      exact ⟨[], rfl, by simp⟩

/-- C6: with a partial destination file of size strictly between zero and the
known remote size, `download_with_progress` attempts a resumed fetch — a range
request starting at the partial size, never a plain GET or a fresh file — and
opens the existing file in append mode when the server accepts; if the
server's response to the range request is not a success status, the attempt
fails with the distinct range-not-supported error and no fallback fresh fetch
occurs. -/
theorem download_partial_resumes_with_range (w : DlWorld) (package_name : String)
    (n p : Nat) (hmk : w.mkdir_fail = none) (hhead : w.head_content_length = some n)
    (hfs : w.fs_size = some p) (hp : 0 < p) (hpn : p < n) :
    ((download_with_progress w package_name).1.take 2 = [.headReq, .rangeReq p] ∧
      FetchAction.getReq ∉ (download_with_progress w package_name).1 ∧
      FetchAction.createFile ∉ (download_with_progress w package_name).1) ∧
    (w.range_fail = none → w.range_status_success = false →
      download_with_progress w package_name =
        ([.headReq, .rangeReq p], [], .error .RangeNotSupported)) ∧
    (w.range_fail = none → w.range_status_success = true → w.open_fail = none →
      FetchAction.openAppend ∈ (download_with_progress w package_name).1) := by
  have hn : n ≠ 0 := by omega
  have hc : is_download_complete (some p) n = false := by
    simp [is_download_complete, Nat.ne_of_lt hpn]
  have hcond : (decide (0 < n) && decide (0 < p) && decide (p < n)) = true := by
    simp [hp, hpn, Nat.pos_of_ne_zero hn]
  rw [download_with_progress, hmk]
  simp only [hhead, Option.getD_some, hfs, hc, Bool.false_eq_true, if_false, hcond, if_true]
  obtain ⟨tail, htail, htl⟩ := download_resume_action_shape w package_name p n
  refine ⟨⟨?_, ?_, ?_⟩, ?_, ?_⟩
  · simp [htail]
  · simp only [htail]
    intro hmem
    rcases List.mem_cons.mp hmem with h | h
    · exact FetchAction.noConfusion h
    · rcases List.mem_cons.mp h with h | h
      · exact FetchAction.noConfusion h
      · rcases htl _ h with h | ⟨k, h⟩
        · exact FetchAction.noConfusion h
        · exact FetchAction.noConfusion h
  · simp only [htail]
    intro hmem
    rcases List.mem_cons.mp hmem with h | h
    · exact FetchAction.noConfusion h
    · rcases List.mem_cons.mp h with h | h
      · exact FetchAction.noConfusion h
      · rcases htl _ h with h | ⟨k, h⟩
        · exact FetchAction.noConfusion h
        · exact FetchAction.noConfusion h
  · intro hrf hrs
    simp [download_resume, hrf, hrs]
  · intro hrf hrs hof
    rw [download_resume, hrf]
    simp only [hrs, Bool.not_true, if_false, hof, not_true_eq_false, ite_false]
    cases hr : (streamLoop package_name n p w.range_chunks p 0).2.2 with
    | error e => simp [hr]
    | ok downloaded => simp [hr]

/-- A download world holding a five-byte partial file of a ten-byte resource,
whose range request is answered with a non-success status. -/
def sampleRangeRejectedDlWorld : DlWorld :=
  ⟨none, some 10, some 5, none, none, [], none, none, false, [], none⟩

/-- C6 witness: the range-rejected world fails with the distinct
range-not-supported error after exactly the HEAD probe and the range request. -/
theorem download_partial_resumes_with_range_witness :
    download_with_progress sampleRangeRejectedDlWorld "Cochrane A" =
      ([.headReq, .rangeReq 5], [], .error .RangeNotSupported) :=
  (download_partial_resumes_with_range sampleRangeRejectedDlWorld "Cochrane A" 10 5
    rfl rfl rfl (by decide) (by decide)).2.1 rfl rfl


/-! ## C3 — already-extracted short circuit -/

/-- `raster_outputs` on the empty archive. -/
theorem raster_outputs_nil (dir : String) : raster_outputs dir [] = [] := rfl

/-- `raster_outputs` unfolded one member at a time. -/
theorem raster_outputs_cons (dir : String) (m : ZipMember) (rest : List ZipMember) :
    raster_outputs dir (m :: rest) =
      if strEndsWith m.name "/" = true then raster_outputs dir rest
      else
        match m.enclosed with
        | none => raster_outputs dir rest
        | some p =>
          if isRasterPath (pathJoin dir p) = true then pathJoin dir p :: raster_outputs dir rest
          else raster_outputs dir rest := by
  by_cases hdir : strEndsWith m.name "/" = true
  · simp [raster_outputs, List.filterMap_cons, hdir]
  · have hdir' : strEndsWith m.name "/" = false := Bool.eq_false_iff.mpr hdir
    cases he : m.enclosed with
    | none => simp [raster_outputs, List.filterMap_cons, hdir', he]
    | some p =>
      by_cases hrp : isRasterPath (pathJoin dir p) = true
      · simp [raster_outputs, List.filterMap_cons, hdir', he, hrp]
      · have hrp' : isRasterPath (pathJoin dir p) = false := Bool.eq_false_iff.mpr hrp
        simp [raster_outputs, List.filterMap_cons, hdir', he, hrp']

/-- When every non-directory member is safely named and already on disk with
its declared size, the completeness walk succeeds and collects exactly the
raster outputs. -/
theorem checkMembers_of_all_sized (fs : FsState) (dir : String) :
    ∀ members : List ZipMember,
      (∀ m ∈ members, strEndsWith m.name "/" = false →
        ∃ p, m.enclosed = some p ∧ fs.files (pathJoin dir p) = some m.size) →
      checkMembers fs dir members = some (raster_outputs dir members) := by
  intro members
  induction members with
  | nil => intro _; rfl
  | cons m rest ih =>
    intro h
    have hrest := ih (fun x hx => h x (List.mem_cons_of_mem m hx))
    rw [raster_outputs_cons, checkMembers]
    by_cases hdir : strEndsWith m.name "/" = true
    · simp [hdir, hrest]
    · have hdir' : strEndsWith m.name "/" = false := Bool.eq_false_iff.mpr hdir
      obtain ⟨p, hp, hsz⟩ := h m (List.mem_cons_self m rest) hdir'
      simp only [hdir', Bool.false_eq_true, if_false, hp, hsz]
      rw [if_neg (by simp)]
      rw [hrest]
      by_cases hrp : isRasterPath (pathJoin dir p) = true
      · simp [hrp]
      · have hrp' : isRasterPath (pathJoin dir p) = false := Bool.eq_false_iff.mpr hrp
        simp [hrp']

/-- C3 amended: when the archive opens, every non-directory member is safely
named and already present with its declared size, and at least one member
resolves to a raster path, `extract_zip` performs no write, emits the single
100 % "already extracted" event, and returns the raster outputs. -/
theorem extraction_already_complete_short_circuit (w : ExtractWorld) (fs : FsState)
    (dir pkg : String)
    (hopen : w.open_fail = none) (harch : w.archive_fail = none)
    (hall : ∀ m ∈ w.members, strEndsWith m.name "/" = false →
        ∃ p, m.enclosed = some p ∧ fs.files (pathJoin dir p) = some m.size)
    (hraster : raster_outputs dir w.members ≠ []) :
    extract_zip w fs dir pkg =
      { fs := fs, writes := [], events := [alreadyExtractedEvent pkg],
        result := .ok (raster_outputs dir w.members) } := by
  have hchk : check_extraction_complete w fs dir = some (raster_outputs dir w.members) := by
    rw [check_extraction_complete]
    rw [if_neg (by simp [hopen, harch])]
    rw [checkMembers_of_all_sized fs dir w.members hall]
    simp [List.isEmpty_iff, hraster]
  rw [extract_zip, hchk]

/-! ### Structural lemmas about the extraction loop

The throttled progress emission compares exact rational percentages; these
lemmas analyse the loop without evaluating them. -/

/-- `extractMember` never touches the event log. -/
theorem extractMember_events (dir : String) (m : ZipMember) (st : ExtractLoopState) :
    (extractMember dir m st).events = st.events := by
  rw [extractMember]
  cases m.enclosed with
  | none => rfl
  | some p =>
    by_cases hdir : strEndsWith m.name "/" = true
    · simp only [hdir, if_true]
    · simp only [Bool.eq_false_iff.mpr hdir, Bool.false_eq_true, if_false]

/-- `extractMember` never changes the raster accumulator except by the
member's own raster output. -/
theorem extractMember_extracted (dir : String) (m : ZipMember) (st : ExtractLoopState)
    (p : String) (he : m.enclosed = some p) :
    (extractMember dir m st).extracted =
      if strEndsWith m.name "/" = true then st.extracted
      else if isRasterPath (pathJoin dir p) = true then st.extracted ++ [pathJoin dir p]
      else st.extracted := by
  rw [extractMember, he]
  by_cases hdir : strEndsWith m.name "/" = true
  · simp only [hdir, if_true]
  · simp only [Bool.eq_false_iff.mpr hdir, Bool.false_eq_true, if_false]

/-- The effective pre-write size `extractMember` checks against. -/
def memberPre (dir : String) (m : ZipMember) (st : ExtractLoopState) (p : String) : Option Nat :=
  (if st.fs.dirs (parentDir (pathJoin dir p)) = true then st.fs
   else { st.fs with dirs := fun d => d == parentDir (pathJoin dir p) || st.fs.dirs d
     }).files (pathJoin dir p)

/-- The writes of one non-directory member, as the size guard decides. -/
theorem extractMember_writes_eq (dir : String) (m : ZipMember) (st : ExtractLoopState)
    (p : String) (he : m.enclosed = some p)
    (hdir : strEndsWith m.name "/" = false) :
    (extractMember dir m st).writes =
      if memberPre dir m st p ≠ some m.size
      then st.writes ++ [⟨pathJoin dir p, m.size, memberPre dir m st p⟩]
      else st.writes := by
  simp only [extractMember, he]
  rw [if_neg (show ¬ strEndsWith m.name "/" = true by simp [hdir])]
  rfl

/-- Every write `extractMember` adds is guarded by the size check. -/
theorem extractMember_writes (dir : String) (m : ZipMember) (st : ExtractLoopState) :
    ∀ rec ∈ (extractMember dir m st).writes, rec ∈ st.writes ∨ rec.pre ≠ some rec.size := by
  intro rec hrec
  cases he : m.enclosed with
  | none =>
    have heq : extractMember dir m st = st := by rw [extractMember, he]
    rw [heq] at hrec
    exact Or.inl hrec
  | some p =>
    by_cases hdir : strEndsWith m.name "/" = true
    · have heq : (extractMember dir m st).writes = st.writes := by
        simp only [extractMember, he]
        rw [if_pos hdir]
      rw [heq] at hrec
      exact Or.inl hrec
    · rw [extractMember_writes_eq dir m st p he (Bool.eq_false_iff.mpr hdir)] at hrec
      by_cases hneed : memberPre dir m st p ≠ some m.size
      · rw [if_pos hneed] at hrec
        rcases List.mem_append.mp hrec with h | h
        · exact Or.inl h
        · right
          have hr : rec = ⟨pathJoin dir p, m.size, memberPre dir m st p⟩ :=
            List.mem_singleton.mp h
          subst hr
          exact hneed
      · rw [if_neg hneed] at hrec
        exact Or.inl hrec

/-- `reportStep` only appends to the event log. -/
theorem reportStep_fields (pkg : String) (total i : Nat) (st : ExtractLoopState) :
    (reportStep pkg total i st).fs = st.fs ∧
    (reportStep pkg total i st).writes = st.writes ∧
    (reportStep pkg total i st).extracted = st.extracted := by
  rw [reportStep]
  split
  · exact ⟨rfl, rfl, rfl⟩
  · exact ⟨rfl, rfl, rfl⟩

/-- At the final member index, `reportStep` always emits. -/
theorem reportStep_events_at_last (pkg : String) (total i : Nat) (st : ExtractLoopState)
    (h : i = total - 1) :
    (reportStep pkg total i st).events =
      st.events ++ [extractingEvent pkg (i + 1) total (((i + 1 : Nat) : Rat) / (total : Rat) * 100)] := by
  rw [reportStep]
  split
  · rfl
  · rename_i hc
    exact absurd (Or.inr h) hc

/-- `reportStep` preserves the head of a nonempty event log. -/
theorem reportStep_events_head (pkg : String) (total i : Nat) (st : ExtractLoopState)
    (h : st.events ≠ []) :
    (reportStep pkg total i st).events.head? = st.events.head? ∧
    (reportStep pkg total i st).events ≠ [] := by
  rw [reportStep]
  split
  · cases hev : st.events with
    | nil => exact absurd hev h
    | cons e rest => simp [hev]
  · exact ⟨rfl, h⟩

/-- The extraction loop returns the accumulated raster outputs of the
remaining members, whatever the filesystem holds. -/
theorem extractLoop_extracted (pkg dir : String) (total : Nat) :
    ∀ (members : List ZipMember) (i : Nat) (st : ExtractLoopState),
      (extractLoop pkg dir total members i st).extracted =
        st.extracted ++ raster_outputs dir members := by
  intro members
  induction members with
  | nil => intro i st; simp [extractLoop, raster_outputs_nil]
  | cons m rest ih =>
    intro i st
    rw [extractLoop]
    cases he : m.enclosed with
    | none =>
      rw [ih]
      rw [raster_outputs_cons]
      simp only [he]
      by_cases hdir : strEndsWith m.name "/" = true
      · rw [if_pos hdir]
      · rw [if_neg hdir]
    | some p =>
      simp only
      rw [ih]
      rw [(reportStep_fields pkg total i (extractMember dir m st)).2.2]
      rw [extractMember_extracted dir m st p he]
      rw [raster_outputs_cons]
      simp only [he]
      by_cases hdir : strEndsWith m.name "/" = true
      · rw [if_pos hdir, if_pos hdir]
      · rw [if_neg hdir, if_neg hdir]
        by_cases hrp : isRasterPath (pathJoin dir p) = true
        · rw [if_pos hrp, if_pos hrp]
          simp
        · rw [if_neg hrp, if_neg hrp]

/-- Every write of the extraction loop is guarded by the size check. -/
theorem extractLoop_writes (pkg dir : String) (total : Nat) :
    ∀ (members : List ZipMember) (i : Nat) (st : ExtractLoopState),
      ∀ rec ∈ (extractLoop pkg dir total members i st).writes,
        rec ∈ st.writes ∨ rec.pre ≠ some rec.size := by
  intro members
  induction members with
  | nil => intro i st rec hrec; rw [extractLoop] at hrec; exact Or.inl hrec
  | cons m rest ih =>
    intro i st rec hrec
    rw [extractLoop] at hrec
    cases he : m.enclosed with
    | none =>
      rw [he] at hrec
      exact ih _ _ rec hrec
    | some p =>
      rw [he] at hrec
      simp only at hrec
      rcases ih _ _ rec hrec with h | h
      · rw [(reportStep_fields pkg total i (extractMember dir m st)).2.1] at h
        exact extractMember_writes dir m st rec h
      · exact Or.inr h

/-- The extraction loop preserves the head of a nonempty event log. -/
theorem extractLoop_events_head (pkg dir : String) (total : Nat) :
    ∀ (members : List ZipMember) (i : Nat) (st : ExtractLoopState),
      st.events ≠ [] →
      (extractLoop pkg dir total members i st).events.head? = st.events.head? := by
  intro members
  induction members with
  | nil => intro i st h; rw [extractLoop]
  | cons m rest ih =>
    intro i st h
    rw [extractLoop]
    cases he : m.enclosed with
    | none => exact ih _ _ h
    | some p =>
      simp only
      have hm : (extractMember dir m st).events = st.events := extractMember_events dir m st
      have hr := reportStep_events_head pkg total i (extractMember dir m st) (by rw [hm]; exact h)
      rw [ih _ _ hr.2, hr.1, hm]

/-- When the completeness walk succeeds, its list is the raster outputs. -/
theorem checkMembers_some_eq (fs : FsState) (dir : String) :
    ∀ (members : List ZipMember) (L : List String),
      checkMembers fs dir members = some L → L = raster_outputs dir members := by
  intro members
  induction members with
  | nil =>
    intro L h
    rw [checkMembers] at h
    cases h
    rfl
  | cons m rest ih =>
    intro L h
    rw [checkMembers] at h
    rw [raster_outputs_cons]
    by_cases hdir : strEndsWith m.name "/" = true
    · rw [if_pos hdir] at h
      rw [if_pos hdir]
      exact ih L h
    · rw [if_neg (by simp [hdir])] at h
      rw [if_neg (by simp [hdir])]
      cases he : m.enclosed with
      | none => simp only [he] at h; exact Option.noConfusion h
      | some p =>
        simp only [he] at h ⊢
        cases hf : fs.files (pathJoin dir p) with
        | none => simp only [hf] at h; exact Option.noConfusion h
        | some actual =>
          simp only [hf] at h
          by_cases hs : actual ≠ m.size
          · rw [if_pos hs] at h; exact absurd h (by simp)
          · rw [if_neg hs] at h
            rcases Option.map_eq_some'.mp h with ⟨t, ht, rfl⟩
            rw [ih t ht]

/-- Whenever the archive opens and the target directory can be created,
`extract_zip` succeeds with exactly the raster outputs of the archive. -/
theorem extract_zip_result_ok (w : ExtractWorld) (fs : FsState) (dir pkg : String)
    (hopen : w.open_fail = none) (harch : w.archive_fail = none)
    (hmk : w.outdir_mkdir_fail = none) :
    (extract_zip w fs dir pkg).result = .ok (raster_outputs dir w.members) := by
  rw [extract_zip]
  cases hchk : check_extraction_complete w fs dir with
  | some L =>
    have hL : L = raster_outputs dir w.members := by
      rw [check_extraction_complete, if_neg (by simp [hopen, harch])] at hchk
      cases hcm : checkMembers fs dir w.members with
      | none => simp only [hcm] at hchk; exact Option.noConfusion hchk
      | some t =>
        simp only [hcm] at hchk
        by_cases ht : t.isEmpty
        · rw [if_pos ht] at hchk; exact Option.noConfusion hchk
        · rw [if_neg ht] at hchk
          cases hchk
          exact checkMembers_some_eq fs dir w.members L hcm
    simp [hL]
  | none =>
    rw [hopen, harch, hmk]
    simp only
    rw [extractLoop_extracted]
    simp

/-- No `extract_zip` run ever rewrites a file whose size already matches the
member's declared size. -/
theorem extract_zip_writes_guard (w : ExtractWorld) (fs : FsState) (dir pkg : String) :
    ∀ rec ∈ (extract_zip w fs dir pkg).writes, rec.pre ≠ some rec.size := by
  intro rec hrec
  rw [extract_zip] at hrec
  cases hchk : check_extraction_complete w fs dir with
  | some L => rw [hchk] at hrec; exact absurd hrec (by simp)
  | none =>
    rw [hchk] at hrec
    cases ho : w.open_fail with
    | some msg => rw [ho] at hrec; exact absurd hrec (by simp)
    | none =>
      rw [ho] at hrec
      cases ha : w.archive_fail with
      | some msg => rw [ha] at hrec; exact absurd hrec (by simp)
      | none =>
        rw [ha] at hrec
        cases hm : w.outdir_mkdir_fail with
        | some msg => rw [hm] at hrec; exact absurd hrec (by simp)
        | none =>
          rw [hm] at hrec
          simp only at hrec
          rcases extractLoop_writes pkg dir w.members.length w.members 0 _ rec hrec with h | h
          · exact absurd h (by simp)
          · exact h

/-- An archive member that is complete on disk but carries no raster
extension. -/
def noRasterMember : ZipMember := ⟨"data.txt", some "data.txt", 5⟩

/-- A one-member archive with no raster member. -/
def noRasterWorld : ExtractWorld := ⟨none, none, none, [noRasterMember]⟩

/-- A filesystem on which `noRasterMember` is already extracted with its
declared size. -/
def noRasterFs : FsState :=
  ⟨fun p => if p = "/cache/extracts/k/data.txt" then some 5 else none, fun _ => false⟩

/-- C3 counterexample: an archive whose every non-directory member is already
present with its declared size but which contains no raster member is
re-extracted — the run does not emit the single 100 % "already extracted"
event the claim requires. -/
theorem extraction_short_circuit_counterexample :
    noRasterFs.files (pathJoin "/cache/extracts/k" "data.txt") = some noRasterMember.size ∧
    strEndsWith noRasterMember.name "/" = false ∧
    noRasterMember.enclosed = some "data.txt" ∧
    (extract_zip noRasterWorld noRasterFs "/cache/extracts/k" "pkg").events ≠
      [alreadyExtractedEvent "pkg"] := by
  refine ⟨by decide, by decide, rfl, ?_⟩
  have hchk : check_extraction_complete noRasterWorld noRasterFs "/cache/extracts/k" = none := by
    decide
  have hhead : (extract_zip noRasterWorld noRasterFs "/cache/extracts/k" "pkg").events.head? =
      some (extractingEvent "pkg" 0 1 0) := by
    rw [extract_zip, hchk]
    show (extractLoop "pkg" "/cache/extracts/k" 1 noRasterWorld.members 0
      { fs := _, writes := [], events := [extractingEvent "pkg" 0 1 0], extracted := [],
        last_reported := 0 }).events.head? = some (extractingEvent "pkg" 0 1 0)
    rw [extractLoop_events_head "pkg" "/cache/extracts/k" 1 noRasterWorld.members 0 _ (by simp)]
    rfl
  intro heq
  rw [heq] at hhead
  simp only [List.head?_cons, Option.some.injEq] at hhead
  have := congrArg
    (fun e => match e with
      | ProgressEvent.Download d => d.status
      | _ => "") hhead
  simp only [alreadyExtractedEvent, extractingEvent] at this
  exact absurd this (by decide)

/-- An archive member with a raster extension. -/
def rasterMember : ZipMember := ⟨"a.tif", some "a.tif", 3⟩

/-- A one-member archive holding a raster member. -/
def rasterWorld : ExtractWorld := ⟨none, none, none, [rasterMember]⟩

/-- A filesystem on which `rasterMember` is already extracted with its
declared size. -/
def rasterFs : FsState :=
  ⟨fun p => if p = "/cache/extracts/k/a.tif" then some 3 else none, fun _ => false⟩

/-- C3 witness: the amended short circuit on a concrete one-member archive. -/
theorem extraction_already_complete_short_circuit_witness :
    (extract_zip rasterWorld rasterFs "/cache/extracts/k" "pkg").events =
      [alreadyExtractedEvent "pkg"] := by
  rw [extraction_already_complete_short_circuit rasterWorld rasterFs "/cache/extracts/k" "pkg"
    rfl rfl
    (by
      intro m hm hnd
      have hmem : m = rasterMember := by simpa [rasterWorld] using hm
      subst hmem
      exact ⟨"a.tif", rfl, by decide⟩)
    (by decide)]

/-! ## C5 — extraction idempotence -/

/-- C5: after a successful `extract_zip` run, a second run on the resulting
filesystem returns the same raster outputs and performs no write against a
path whose size already matches the member's declared size. -/
theorem extraction_idempotent (w : ExtractWorld) (fs : FsState) (dir pkg : String)
    (files1 : List String)
    (h1 : (extract_zip w fs dir pkg).result = .ok files1) :
    (extract_zip w (extract_zip w fs dir pkg).fs dir pkg).result = .ok files1 ∧
    ∀ rec ∈ (extract_zip w (extract_zip w fs dir pkg).fs dir pkg).writes,
      rec.pre ≠ some rec.size := by
  refine ⟨?_, extract_zip_writes_guard w (extract_zip w fs dir pkg).fs dir pkg⟩
  have hopen : w.open_fail = none := by
    cases ho : w.open_fail with
    | none => rfl
    | some msg =>
      have hchk : check_extraction_complete w fs dir = none := by
        rw [check_extraction_complete, if_pos]
        simp [ho]
      rw [extract_zip, hchk, ho] at h1
      exact absurd h1 (by simp)
  have harch : w.archive_fail = none := by
    cases ha : w.archive_fail with
    | none => rfl
    | some msg =>
      have hchk : check_extraction_complete w fs dir = none := by
        rw [check_extraction_complete, if_pos]
        simp [ha]
      rw [extract_zip, hchk, hopen, ha] at h1
      exact absurd h1 (by simp)
  cases hchk : check_extraction_complete w fs dir with
  | some L =>
    have hfs : (extract_zip w fs dir pkg).fs = fs := by rw [extract_zip, hchk]
    rw [hfs]
    exact h1
  | none =>
    have hmk : w.outdir_mkdir_fail = none := by
      cases hm : w.outdir_mkdir_fail with
      | none => rfl
      | some msg =>
        rw [extract_zip, hchk, hopen, harch, hm] at h1
        exact absurd h1 (by simp)
    have hres := extract_zip_result_ok w fs dir pkg hopen harch hmk
    rw [h1] at hres
    cases hres
    exact extract_zip_result_ok w (extract_zip w fs dir pkg).fs dir pkg hopen harch hmk

/-- C5 witness: a first run over an empty filesystem extracts the raster
member; the second run returns the same raster output list. -/
theorem extraction_idempotent_witness :
    (extract_zip rasterWorld
        (extract_zip rasterWorld emptyFs "/cache/extracts/k" "pkg").fs
        "/cache/extracts/k" "pkg").result = .ok ["/cache/extracts/k/a.tif"] :=
  (extraction_idempotent rasterWorld emptyFs "/cache/extracts/k" "pkg"
    ["/cache/extracts/k/a.tif"]
    ((extract_zip_result_ok rasterWorld emptyFs "/cache/extracts/k" "pkg" rfl rfl rfl).trans
      (congrArg Except.ok (by decide)))).1

/-! ## C10 — the Complete event's filename versus the registered filename -/

/-- Every event of the streaming loop is a Download event. -/
theorem streamLoop_events_are_download (package_name : String) (total_bytes session_base : Nat) :
    ∀ chunks downloaded last_update,
      ∀ e ∈ (streamLoop package_name total_bytes session_base chunks downloaded last_update).2.1,
        isStageEvent e = true := by
  intro chunks
  induction chunks with
  | nil => intro downloaded last_update e he; simp [streamLoop] at he
  | cons step rest ih =>
    intro downloaded last_update e he
    cases step with
    | httpFail msg => simp [streamLoop] at he
    | ioFail msg => simp [streamLoop] at he
    | data size now_ms =>
      rw [streamLoop] at he
      by_cases hcond : 100 < now_ms - last_update ∨ (downloaded + size == total_bytes) = true
      · simp only [hcond, if_true] at he
        rcases List.mem_cons.mp he with h | h
        · subst h; rfl
        · exact ih _ _ e h
      · simp only [hcond, if_false] at he
        exact ih _ _ e he

/-- Every event `download_with_progress` publishes is a Download event. -/
theorem download_with_progress_events_stage (w : DlWorld) (package_name : String) :
    ∀ e ∈ (download_with_progress w package_name).2.1, isStageEvent e = true := by
  intro e he
  have hfresh : ∀ e ∈ (download_fresh w package_name).2.1, isStageEvent e = true := by
    intro e he
    rw [download_fresh] at he
    cases hg : w.get_fail with
    | some msg => rw [hg] at he; simp at he
    | none =>
      rw [hg] at he
      simp only at he
      cases hc : w.create_fail with
      | some msg =>
        rw [hc] at he
        rcases List.mem_singleton.mp he with rfl
        rfl
      | none =>
        rw [hc] at he
        simp only at he
        have hsl := streamLoop_events_are_download package_name
          (w.get_content_length.getD 0) 0 w.get_chunks 0 0
        cases hr : (streamLoop package_name (w.get_content_length.getD 0) 0 w.get_chunks 0 0).2.2 with
        | error err =>
          rw [hr] at he
          rcases List.mem_cons.mp he with h | h
          · subst h; rfl
          · exact hsl e h
        | ok downloaded =>
          rw [hr] at he
          rcases List.mem_cons.mp he with h | h
          · subst h; rfl
          · rcases List.mem_append.mp h with h | h
            · exact hsl e h
            · rcases List.mem_singleton.mp h with rfl
              rfl
  have hresume : ∀ p n, ∀ e ∈ (download_resume w package_name p n).2.1,
      isStageEvent e = true := by
    intro p n e he
    rw [download_resume] at he
    cases hg : w.range_fail with
    | some msg => rw [hg] at he; simp at he
    | none =>
      rw [hg] at he
      simp only at he
      by_cases hrs : w.range_status_success
      · rw [if_neg (by simp [hrs])] at he
        cases ho : w.open_fail with
        | some msg =>
          rw [ho] at he
          rcases List.mem_singleton.mp he with rfl
          rfl
        | none =>
          rw [ho] at he
          simp only at he
          have hsl := streamLoop_events_are_download package_name n p w.range_chunks p 0
          cases hr : (streamLoop package_name n p w.range_chunks p 0).2.2 with
          | error err =>
            rw [hr] at he
            rcases List.mem_cons.mp he with h | h
            · subst h; rfl
            · exact hsl e h
          | ok downloaded =>
            rw [hr] at he
            rcases List.mem_cons.mp he with h | h
            · subst h; rfl
            · rcases List.mem_append.mp h with h | h
              · exact hsl e h
              · rcases List.mem_singleton.mp h with rfl
                rfl
      · rw [if_pos (by simp [hrs])] at he
        simp at he
  rw [download_with_progress] at he
  cases hm : w.mkdir_fail with
  | some msg => rw [hm] at he; simp at he
  | none =>
    rw [hm] at he
    simp only at he
    by_cases hcomp : is_download_complete w.fs_size (w.head_content_length.getD 0) = true
    · rw [if_pos hcomp] at he
      rcases List.mem_singleton.mp he with rfl
      rfl
    · rw [if_neg hcomp] at he
      by_cases hsup : (decide (0 < w.head_content_length.getD 0) &&
          decide (0 < w.fs_size.getD 0) && decide (w.fs_size.getD 0 < w.head_content_length.getD 0)) = true
      · rw [if_pos hsup] at he
        exact hresume _ _ e he
      · rw [if_neg hsup] at he
        by_cases hp : 0 < w.fs_size.getD 0
        · rw [if_pos hp] at he
          exact hfresh e he
        · rw [if_neg hp] at he
          exact hfresh e he

/-- Every event `reportStep` emits is either inherited or an extraction
progress event. -/
theorem reportStep_events_mem (pkg : String) (total i : Nat) (st : ExtractLoopState) :
    ∀ e ∈ (reportStep pkg total i st).events,
      e ∈ st.events ∨ ∃ d t pc, e = extractingEvent pkg d t pc := by
  rw [reportStep]
  split
  · intro e he
    rcases List.mem_append.mp he with h | h
    · exact Or.inl h
    · rcases List.mem_singleton.mp h with rfl
      exact Or.inr ⟨_, _, _, rfl⟩
  · intro e he
    exact Or.inl he

/-- The extraction loop preserves stage-only event logs. -/
theorem extractLoop_events_stage (pkg dir : String) (total : Nat) :
    ∀ (members : List ZipMember) (i : Nat) (st : ExtractLoopState),
      (∀ e ∈ st.events, isStageEvent e = true) →
      ∀ e ∈ (extractLoop pkg dir total members i st).events, isStageEvent e = true := by
  intro members
  induction members with
  | nil => intro i st h e he; rw [extractLoop] at he; exact h e he
  | cons m rest ih =>
    intro i st h e he
    rw [extractLoop] at he
    cases hme : m.enclosed with
    | none =>
      rw [hme] at he
      exact ih _ _ h e he
    | some p =>
      rw [hme] at he
      simp only at he
      refine ih _ _ ?_ e he
      intro x hx
      rcases reportStep_events_mem pkg total i (extractMember dir m st) x hx with hx' | ⟨d, t, pc, rfl⟩
      · rw [extractMember_events] at hx'
        exact h x hx'
      · rfl

/-- Every event `extract_zip` publishes is a stage event. -/
theorem extract_zip_events_stage (w : ExtractWorld) (fs : FsState) (dir pkg : String) :
    ∀ e ∈ (extract_zip w fs dir pkg).events, isStageEvent e = true := by
  intro e he
  rw [extract_zip] at he
  cases hchk : check_extraction_complete w fs dir with
  | some L =>
    rw [hchk] at he
    rcases List.mem_singleton.mp he with rfl
    rfl
  | none =>
    rw [hchk] at he
    cases ho : w.open_fail with
    | some msg => rw [ho] at he; simp at he
    | none =>
      rw [ho] at he
      cases ha : w.archive_fail with
      | some msg => rw [ha] at he; simp at he
      | none =>
        rw [ha] at he
        cases hm : w.outdir_mkdir_fail with
        | some msg => rw [hm] at he; simp at he
        | none =>
          rw [hm] at he
          simp only at he
          refine extractLoop_events_stage pkg dir w.members.length w.members 0 _ ?_ e he
          intro x hx
          rcases List.mem_singleton.mp hx with rfl
          rfl

/-- Every event `merge_to_cog` publishes is a Processing event. -/
theorem merge_events_stage (w : MergeWorld) (input_files : List String)
    (output_path : String) (clip : Option ClipExtent) (comp : CompressionType) :
    ∀ e ∈ (merge_to_cog w input_files output_path clip comp).2.1, isStageEvent e = true := by
  intro e he
  rw [merge_to_cog] at he
  by_cases hempty : input_files.isEmpty
  · rw [if_pos hempty] at he; simp at he
  · rw [if_neg hempty] at he
    simp only at he
    cases hw : w.warp_result.io_fail with
    | some msg =>
      rw [hw] at he
      simp only [List.mem_cons, List.not_mem_nil, or_false] at he
      rcases he with rfl | rfl
      · rfl
      · rfl
    | none =>
      rw [hw] at he
      by_cases hws : w.warp_result.success
      · rw [if_neg (by simp [hws])] at he
        simp only at he
        cases ht : w.translate_result.io_fail with
        | some msg =>
          rw [ht] at he
          simp only [List.mem_cons, List.not_mem_nil, or_false] at he
          rcases he with rfl | rfl | rfl
          · rfl
          · rfl
          · rfl
        | none =>
          rw [ht] at he
          by_cases hts : w.translate_result.success
          · rw [if_neg (by simp [hts])] at he
            simp only [List.mem_cons, List.not_mem_nil, or_false] at he
            rcases he with rfl | rfl | rfl | rfl
            · rfl
            · rfl
            · rfl
            · rfl
          · rw [if_pos (by simp [hts])] at he
            simp only [List.mem_cons, List.not_mem_nil, or_false] at he
            rcases he with rfl | rfl | rfl
            · rfl
            · rfl
            · rfl
      · rw [if_pos (by simp [hws])] at he
        simp only [List.mem_cons, List.not_mem_nil, or_false] at he
        rcases he with rfl | rfl
        · rfl
        · rfl

/-- Every event of the package loop is a stage event. -/
theorem runPackages_events_stage (w : JobWorld) (zip_cache_dir extract_cache_dir : String) :
    ∀ (packages : List Package) (i : Nat),
      ∀ e ∈ (runPackages w zip_cache_dir extract_cache_dir packages i).1,
        isStageEvent e = true := by
  intro packages
  induction packages with
  | nil => intro i e he; simp [runPackages] at he
  | cons pkg rest ih =>
    intro i e he
    rw [runPackages] at he
    have hdl := download_with_progress_events_stage (w.dlw i) pkg.package_name
    rcases hd : download_with_progress (w.dlw i) pkg.package_name with ⟨acts, devs, dres⟩
    rw [hd] at he hdl
    simp only at he hdl
    cases dres with
    | error err => exact hdl e he
    | ok u =>
      simp only at he
      have hex := extract_zip_events_stage (w.exw i) (w.exfs i)
        (extract_cache_dir ++ "/" ++ package_cache_key pkg) pkg.package_name
      cases hr : (extract_zip (w.exw i) (w.exfs i)
          (extract_cache_dir ++ "/" ++ package_cache_key pkg) pkg.package_name).result with
      | error err =>
        rw [hr] at he
        rcases List.mem_append.mp he with h | h
        · exact hdl e h
        · exact hex e h
      | ok tiffs =>
        rw [hr] at he
        rcases hrest : runPackages w zip_cache_dir extract_cache_dir rest (i + 1)
          with ⟨revs, rres⟩
        rw [hrest] at he
        simp only at he
        rcases List.mem_append.mp he with h | h
        · rcases List.mem_append.mp h with h | h
          · exact hdl e h
          · exact hex e h
        · have := ih (i + 1) e
          rw [hrest] at this
          exact this h

/-- Every event of one job run is a stage event or the constant-named
Complete event. -/
theorem run_download_job_events_cases (w : JobWorld) (packages : List Package)
    (zip_cache_dir extract_cache_dir output_path : String)
    (clip : Option ClipExtentRequest) (comp : String) :
    ∀ e ∈ (run_download_job w packages zip_cache_dir extract_cache_dir output_path
        clip comp).1,
      isStageEvent e = true ∨ e = .Complete "dtm_output.tif" := by
  intro e he
  rw [run_download_job] at he
  have hpk := runPackages_events_stage w zip_cache_dir extract_cache_dir packages 0
  rcases hp : runPackages w zip_cache_dir extract_cache_dir packages 0 with ⟨pevs, pres⟩
  rw [hp] at he hpk
  simp only at he hpk
  cases pres with
  | error err => exact Or.inl (hpk e he)
  | ok tiffs =>
    simp only at he
    have hme := merge_events_stage w.merge tiffs output_path
      (clip.map fun c => ClipExtent.mk c.min_x c.min_y c.max_x c.max_y)
      (CompressionType.fromStr comp)
    rcases hm : merge_to_cog w.merge tiffs output_path
        (clip.map fun c => ClipExtent.mk c.min_x c.min_y c.max_x c.max_y)
        (CompressionType.fromStr comp) with ⟨cmds, mevs, mres⟩
    rw [hm] at he hme
    simp only at he hme
    cases mres with
    | error err =>
      rcases List.mem_append.mp he with h | h
      · exact Or.inl (hpk e h)
      · exact Or.inl (hme e h)
    | ok u =>
      simp only at he
      rcases List.mem_append.mp he with h | h
      · rcases List.mem_append.mp h with h | h
        · exact Or.inl (hpk e h)
        · exact Or.inl (hme e h)
      · rcases List.mem_singleton.mp h with rfl
        exact Or.inr rfl

/-- C10: the Complete event carries the constant filename `dtm_output.tif`,
which never equals the registered per-job output filename
(`dtm_output_` + first eight id characters + `.tif`) that the file-retrieval
endpoint's Content-Disposition header uses; in particular no job ever
publishes a Complete event carrying its registered filename. -/
theorem complete_event_filename_mismatch (id : String) (hid : 8 ≤ id.length)
    (w : JobWorld) (packages : List Package)
    (zip_cache_dir extract_cache_dir output_path : String)
    (clip : Option ClipExtentRequest) (comp : String) :
    output_filename_for id ≠ "dtm_output.tif" ∧
    ((run_download_job w packages zip_cache_dir extract_cache_dir output_path
        clip comp).2 = .ok () →
      (run_download_job w packages zip_cache_dir extract_cache_dir output_path
        clip comp).1.getLast? = some (.Complete "dtm_output.tif")) ∧
    ProgressEvent.Complete (output_filename_for id) ∉
      (run_download_job w packages zip_cache_dir extract_cache_dir output_path
        clip comp).1 := by
  have htake : (takeChars 8 id).length = 8 := by
    rw [takeChars]
    show (List.take 8 id.data).length = 8
    rw [List.length_take]
    have hdata : id.data.length = id.length := rfl
    omega
  have hne : output_filename_for id ≠ "dtm_output.tif" := by
    intro h
    have hlen := congrArg String.length h
    rw [output_filename_for, String.length_append, String.length_append, htake] at hlen
    exact absurd hlen (by decide)
  refine ⟨hne, ?_, ?_⟩
  · intro hok
    rw [run_download_job] at hok ⊢
    rcases hrp : runPackages w zip_cache_dir extract_cache_dir packages 0 with ⟨pevs, pres⟩
    rw [hrp] at hok
    simp only at hok ⊢
    cases pres with
    | error err => exact absurd hok (by simp)
    | ok tiffs =>
      simp only at hok ⊢
      cases hm : (merge_to_cog w.merge tiffs output_path
          (Option.map (fun c => ClipExtent.mk c.min_x c.min_y c.max_x c.max_y) clip)
          (CompressionType.fromStr comp)).2.2 with
      | error err =>
        rw [hm] at hok
        simp only at hok
        exact absurd hok (by simp)
      | ok u =>
        simp only
        exact List.getLast?_concat _
  · intro hmem
    rcases run_download_job_events_cases w packages zip_cache_dir extract_cache_dir
      output_path clip comp _ hmem with h | h
    · simp [isStageEvent] at h
    · exact hne (ProgressEvent.Complete.inj h)

/-- C10 witness: a concrete 36-character job id's registered filename differs
from the constant Complete-event filename. -/
theorem complete_event_filename_mismatch_witness :
    output_filename_for "123e4567-e89b-12d3-a456-426614174000" ≠ "dtm_output.tif" :=
  (complete_event_filename_mismatch "123e4567-e89b-12d3-a456-426614174000" (by decide)
    sampleFailingJobWorld [] "/z" "/e" "/out.tif" none "zstd").1

/-! ## C1 — a failed job publishes no Error event -/

/-- C1 (code bug): a job whose single package download fails at transport
level produces no progress event at all — in particular no `Error` event and
no `Complete` event — and `run_download_job` merely returns the error, which
the spawned task only logs to stderr.  `ProgressEvent.Error` is declared in
`api_types.rs` but never constructed anywhere in the server. -/
theorem failed_job_publishes_no_error_event :
    job_task_events sampleFailingJobWorld [samplePackage] "/zips" "/extracts" "/out.tif"
      none "zstd" = [] ∧
    (run_download_job sampleFailingJobWorld [samplePackage] "/zips" "/extracts" "/out.tif"
      none "zstd").2 = .error "HTTP request failed: error sending request" := by
  constructor
  · rfl
  · rfl

end Dtm
